import Mathlib

/-!
# Shallow embedding of the Kalshi-BTC pricing/calibration utilities

This file embeds, in Lean 4, the arithmetic core of the Kalshi-BTC
repository and proves the specified properties about it.

Conventions of the embedding:
* JavaScript `number` arithmetic is modelled over `ℝ` where the code uses
  transcendental functions (`Math.sqrt`, `Math.log`), and over `ℚ` where the
  code is purely rational (rounding, cache fingerprints, EV arithmetic).
  Division by zero follows the Lean convention `x / 0 = 0`.
* `Math.round` (round half toward positive infinity) is `jsRound`.
* `Math.min` / `Math.max` are `min` / `max`.
* JS `Map` (insertion ordered, unique keys) is an association list kept in
  insertion order.
-/

namespace KalshiBTC

/-! ## Shared data model (src/unnamed/part_000) -/

/-- Jump kind of `JumpParams` (part_000): merton or kou. -/
inductive JumpKind where
  | merton
  | kou
deriving DecidableEq

/-- Structure `HestonParams` from part_000: kappa, theta, xi, rho. -/
structure HestonParams where
  kappa : ℝ
  theta : ℝ
  xi : ℝ
  rho : ℝ

/-- Structure `JumpParams` from part_000: lambda, mu_j, sigma_j, kind. -/
structure JumpParams where
  lambda : ℝ
  mu_j : ℝ
  sigma_j : ℝ
  kind : JumpKind

/-- Type `Regime` from part_000. -/
inductive Regime where
  | BULL
  | BEAR
deriving DecidableEq

/-- The regime block of `CalibrationData` from part_000. -/
structure RegimeState where
  current : Regime
  probabilities : ℝ × ℝ

/-! ## Math utilities (src/unnamed/part_001) -/

/-- Function `wilsonCI(successes, n, confidence)` from part_001 lines 7-22, real model
of the floating-point code.  The code picks z = 1.96 exactly when
confidence === 0.95 and z = 2.576 otherwise. -/
noncomputable def wilsonCI (successes n : ℕ) (confidence : ℝ) : ℝ × ℝ :=
  if n = 0 then (0, 1)
  else
    let p : ℝ := (successes : ℝ) / (n : ℝ)
    let z : ℝ := if confidence = 0.95 then 1.96 else 2.576
    let zsq : ℝ := z * z
    let denominator : ℝ := 1 + zsq / (n : ℝ)
    let center : ℝ := (p + zsq / (2 * (n : ℝ))) / denominator
    let margin : ℝ :=
      z * Real.sqrt (p * (1 - p) / (n : ℝ) + zsq / (4 * (n : ℝ) * (n : ℝ))) / denominator
    (max 0 (center - margin), min 1 (center + margin))

/-- The Wilson score interval exactly as the specification words it, for a
given z-score: center=(p+z²/(2n))/(1+z²/n),
margin=(z·√(p(1−p)/n + z²/(4n²)))/(1+z²/n), endpoints clipped into [0,1]. -/
noncomputable def wilsonSpecInterval (h n : ℕ) (z : ℝ) : ℝ × ℝ :=
  let p : ℝ := (h : ℝ) / (n : ℝ)
  let center : ℝ := (p + z ^ 2 / (2 * (n : ℝ))) / (1 + z ^ 2 / (n : ℝ))
  let margin : ℝ :=
    z * Real.sqrt (p * (1 - p) / (n : ℝ) + z ^ 2 / (4 * (n : ℝ) ^ 2)) / (1 + z ^ 2 / (n : ℝ))
  (max 0 (center - margin), min 1 (center + margin))

/-- The four Kalshi contract actions of `calculateEV` (part_001). -/
inductive EVAction where
  | BUY_YES
  | SELL_YES
  | BUY_NO
  | SELL_NO
deriving DecidableEq

/-- Function `calculateEV(probability, action, price)` from part_001 lines 27-42. -/
def calculateEV (probability : ℚ) (action : EVAction) (price : ℚ) : ℚ :=
  match action with
  | .BUY_YES => 100 * probability - price
  | .SELL_YES => price - 100 * (1 - probability)
  | .BUY_NO => 100 * (1 - probability) - price
  | .SELL_NO => price - 100 * probability

/-- Function `realizedVolatility(returns)` from part_001 lines 69-76: sample standard
deviation (divisor n−1) of the list, 0 when fewer than two entries. -/
noncomputable def realizedVolatility (returns : List ℝ) : ℝ :=
  if returns.length < 2 then 0
  else
    let mean : ℝ := returns.sum / (returns.length : ℝ)
    let variance : ℝ :=
      (returns.map (fun r => (r - mean) ^ 2)).sum / ((returns.length : ℝ) - 1)
    Real.sqrt variance

/-- Function `detectJumps(returns, threshold)` from part_001 lines 114-119: keep the
returns farther than threshold·vol from the mean. -/
noncomputable def detectJumps (returns : List ℝ) (threshold : ℝ) : List ℝ :=
  let vol : ℝ := realizedVolatility returns
  let mean : ℝ := returns.sum / (returns.length : ℝ)
  returns.filter (fun r => decide (threshold * vol < |r - mean|))

/-- Constant `DEFAULT_JUMP_PARAMS` from part_001 lines 482-487. -/
def DEFAULT_JUMP_PARAMS : JumpParams :=
  { lambda := 0.1, mu_j := 0, sigma_j := 0.02, kind := .merton }

/-- Constant `DEFAULT_HESTON_PARAMS` from part_001 lines 475-480. -/
def DEFAULT_HESTON_PARAMS : HestonParams :=
  { kappa := 2.0, theta := 0.04, xi := 0.3, rho := -0.5 }

/-- Sample standard deviation with divisor n−1, as the specification words
it (stddev over a window); equals `realizedVolatility` on every list under
the `x / 0 = 0` convention. -/
noncomputable def sampleStd (xs : List ℝ) : ℝ :=
  Real.sqrt ((xs.map (fun x => (x - xs.sum / (xs.length : ℝ)) ^ 2)).sum /
    ((xs.length : ℝ) - 1))

/-- Arithmetic mean of a list of reals. -/
noncomputable def listMean (xs : List ℝ) : ℝ := xs.sum / (xs.length : ℝ)

/-! ## Calibration route (src/apps/web/app/api/calibrate/route.ts) -/

/-- Function `calibrateHestonParams(dailyRV, weeklyRV, intradayRV)` from route.ts
lines 131-154. -/
noncomputable def calibrateHestonParams (dailyRV weeklyRV intradayRV : ℝ) : HestonParams :=
  let theta : ℝ := 0.7 * dailyRV * dailyRV + 0.3 * weeklyRV * weeklyRV
  let kappa : ℝ := if 0.01 < |intradayRV - dailyRV| then 3.0 else 2.0
  let xi : ℝ := min 0.5 (|intradayRV - dailyRV| / dailyRV)
  let rho : ℝ := -0.5
  { kappa := max 0.5 (min 5.0 kappa)
    theta := max 0.0001 (min 0.25 theta)
    xi := max 0.1 (min 1.0 xi)
    rho := max (-0.9) (min (-0.1) rho) }

/-- Function `estimateJumpParams(returns, threshold)` from route.ts lines 81-104. -/
noncomputable def estimateJumpParams (returns : List ℝ) (threshold : ℝ) : JumpParams :=
  let jumps := detectJumps returns threshold
  if jumps = [] then DEFAULT_JUMP_PARAMS
  else
    let lambda : ℝ := (jumps.length : ℝ) / (returns.length : ℝ)
    let logJumps : List ℝ := jumps.map (fun j => Real.log |j|)
    let mu_j : ℝ := logJumps.sum / (logJumps.length : ℝ)
    let sigma_j : ℝ :=
      Real.sqrt ((logJumps.map (fun j => (j - mu_j) ^ 2)).sum /
        ((logJumps.length : ℝ) - 1))
    { lambda := max 0.01 (min 1.0 lambda)
      mu_j := 0
      sigma_j := max 0.01 (min 0.1 sigma_j)
      kind := .merton }

/-- Structure `CalibrationData` from part_000 lines 143-157, extended with one extra
field `degraded : Option Bool` that records whether the serialized response
object carries a degraded marker key.  The TypeScript interface declares no
such field, so every construction site in the code leaves it `none`
(the key is absent from the JSON the route returns). -/
structure CalibrationData where
  dailyRV : ℝ
  weeklyRV : ℝ
  intradayRV : ℝ
  jumps : JumpParams
  regime : RegimeState
  timestamp : ℤ
  degraded : Option Bool

/-- The `defaultData` bundle built in the catch branch of `GET` in route.ts
lines 207-224 when the upstream candle fetch fails; `now` stands for
`Date.now()`.  The code sets no degraded marker on it. -/
noncomputable def defaultCalibrationData (now : ℤ) : CalibrationData :=
  { dailyRV := Real.sqrt DEFAULT_HESTON_PARAMS.theta
    weeklyRV := Real.sqrt DEFAULT_HESTON_PARAMS.theta
    intradayRV := Real.sqrt DEFAULT_HESTON_PARAMS.theta
    jumps := DEFAULT_JUMP_PARAMS
    regime := { current := .BULL, probabilities := (0.5, 0.5) }
    timestamp := now
    degraded := none }

/-- Function `detectRegime(returns)` from route.ts lines 107-128.  `slice(-20)` is
`drop (length − 20)`: the last `min 20 length` entries. -/
noncomputable def detectRegime (returns : List ℝ) : RegimeState :=
  if returns.length < 10 then
    { current := .BULL, probabilities := (0.5, 0.5) }
  else
    let recentReturns := returns.drop (returns.length - 20)
    let avgReturn : ℝ := recentReturns.sum / (recentReturns.length : ℝ)
    let vol : ℝ := realizedVolatility recentReturns
    let bullScore : ℝ := (if 0 < avgReturn then 0.6 else 0.4) + (if vol < 0.02 then 0.2 else 0)
    let bearScore : ℝ := 1 - bullScore
    { current := if bearScore < bullScore then .BULL else .BEAR
      probabilities := (bullScore, bearScore) }

/-! ## Simulation cache (src/apps/web/components/SensitivityPanel.tsx,
`SimulationCache`, lines 329-385) -/

/-- Structure `SensitivityParams` from part_000 lines 181-185: three multipliers.
Doubles are rationals, so the fields live in ℚ. -/
structure SensitivityParams where
  volatilityMultiplier : ℚ
  jumpIntensityMultiplier : ℚ
  jumpSizeMultiplier : ℚ
deriving DecidableEq

/-- Structure `CacheKey` from SensitivityPanel.tsx lines 317-322. -/
structure CacheKey where
  marketTicker : String
  s0 : ℚ
  timeToClose : ℚ
  sensitivity : SensitivityParams
deriving DecidableEq

/-- JavaScript `Math.round`: round half toward positive infinity. -/
def jsRound (x : ℚ) : ℤ := ⌊x + 1 / 2⌋

/-- The JSON object produced by `SimulationCache.generateKey` (lines
334-343).  `JSON.stringify` with this fixed field order is a canonical
encoding: two generated key strings are equal exactly when the six recorded
components are equal, which is structure equality here. -/
structure Fingerprint where
  ticker : String
  s0 : ℤ
  t : ℚ
  vol : ℚ
  jump : ℚ
  size : ℚ
deriving DecidableEq

/-- Function `generateKey(key)` from SensitivityPanel.tsx lines 334-343: rounds s0 to
the nearest dollar and timeToClose to 0.1 hours, and records the ticker and
the three sensitivity multipliers verbatim. -/
def generateKey (key : CacheKey) : Fingerprint :=
  { ticker := key.marketTicker
    s0 := jsRound key.s0
    t := (jsRound (key.timeToClose * 10) : ℚ) / 10
    vol := key.sensitivity.volatilityMultiplier
    jump := key.sensitivity.jumpIntensityMultiplier
    size := key.sensitivity.jumpSizeMultiplier }

/-- Structure `CacheEntry` from SensitivityPanel.tsx lines 324-327; the payload type is
a parameter (`SimResult` in the source). -/
structure CacheEntry (α : Type) where
  result : α
  timestamp : ℤ

/-- The `SimulationCache` state: the JS `Map` as an association list in
insertion order with unique keys. -/
structure SimulationCache (α : Type) where
  cache : List (Fingerprint × CacheEntry α)

/-- Field `maxAge` of `SimulationCache` (60000 ms). -/
def cacheMaxAge : ℤ := 60000

/-- Field `maxSize` of `SimulationCache` (50 entries). -/
def cacheMaxSize : ℕ := 50

/-- JS `Map.set`: update the value in place when the key is present (keeping
its insertion position), otherwise append at the end. -/
def mapSet {α : Type} (l : List (Fingerprint × CacheEntry α)) (k : Fingerprint)
    (v : CacheEntry α) : List (Fingerprint × CacheEntry α) :=
  if l.any (fun e => decide (e.1 = k)) then
    l.map (fun e => if e.1 = k then (k, v) else e)
  else
    l ++ [(k, v)]

/-- JS `Map.delete`: remove the entry with the given key (the first match;
keys are unique in a `Map`). -/
def mapDelete {α : Type} (l : List (Fingerprint × CacheEntry α)) (k : Fingerprint) :
    List (Fingerprint × CacheEntry α) :=
  l.eraseP (fun e => decide (e.1 = k))

/-- Method `SimulationCache.get(key)` from SensitivityPanel.tsx lines 345-358,
with `Date.now()` passed in as `now`.  Returns the looked-up value (if
fresh) together with the updated cache state (an expired entry is deleted
on the read). -/
def cacheGet {α : Type} (c : SimulationCache α) (key : CacheKey) (now : ℤ) :
    Option α × SimulationCache α :=
  let cacheKey := generateKey key
  match c.cache.find? (fun e => decide (e.1 = cacheKey)) with
  | none => (none, c)
  | some entry =>
    if cacheMaxAge < now - entry.2.timestamp then
      (none, ⟨mapDelete c.cache cacheKey⟩)
    else
      (some entry.2.result, c)

/-- Method `SimulationCache.set(key, result)` from SensitivityPanel.tsx lines
360-373: when the map is full, delete the first (oldest-inserted) key
before inserting. -/
def cacheSet {α : Type} (c : SimulationCache α) (key : CacheKey) (result : α)
    (now : ℤ) : SimulationCache α :=
  let cacheKey := generateKey key
  let pruned :=
    if cacheMaxSize ≤ c.cache.length then
      match c.cache.head? with
      | some first => mapDelete c.cache first.1
      | none => c.cache
    else c.cache
  ⟨mapSet pruned cacheKey ⟨result, now⟩⟩

/-- Method `SimulationCache.clear()` from SensitivityPanel.tsx lines 375-377. -/
def cacheClear {α : Type} : SimulationCache α := ⟨[]⟩

/-- One externally-invocable operation on the cache singleton. -/
inductive CacheOp (α : Type) where
  | get (key : CacheKey) (now : ℤ)
  | set (key : CacheKey) (result : α) (now : ℤ)
  | clear

/-- Apply one operation to a cache state. -/
def applyCacheOp {α : Type} (c : SimulationCache α) : CacheOp α → SimulationCache α
  | .get key now => (cacheGet c key now).2
  | .set key result now => cacheSet c key result now
  | .clear => cacheClear

/-- Run a sequence of operations from the freshly constructed (empty)
cache. -/
def runCacheOps {α : Type} (ops : List (CacheOp α)) : SimulationCache α :=
  ops.foldl applyCacheOp ⟨[]⟩

/-! ## Simulation input preparation
(src/apps/web/lib/hooks/useSimulation.ts, `prepareSimInputs`, lines 107-159) -/

/-- Structure `RegimeParams` from part_000 lines 19-22. -/
structure RegimeParams where
  mu : ℝ
  heston : HestonParams

/-- Structure `HMM` from part_000 lines 24-27. -/
structure HMM where
  p : (ℝ × ℝ) × (ℝ × ℝ)
  pi0 : ℝ × ℝ

/-- Structure `SimInputs` from part_000 lines 30-40 (the regimes record is split into
its BULL and BEAR fields). -/
structure SimInputs where
  s0 : ℝ
  t : ℝ
  dt : ℝ
  bull : RegimeParams
  bear : RegimeParams
  hmm : HMM
  jumps : JumpParams

/-- JavaScript `x || d` on an optional number `x`: the default `d` when the
field is missing or its value is falsy (0). -/
def jsOrDefault (x : Option ℚ) (d : ℚ) : ℚ :=
  match x with
  | none => d
  | some v => if v = 0 then d else v

/-- Function `prepareSimInputs(market, calibration, currentPrice, sensitivity)` from
useSimulation.ts lines 107-159; `timeToClose` (derived from the market close
time and the wall clock) is passed in directly. -/
noncomputable def prepareSimInputs (calibration : CalibrationData)
    (currentPrice timeToClose : ℝ) (sensitivity : Option SensitivityParams) :
    SimInputs :=
  let volMultiplier : ℝ :=
    ((jsOrDefault (sensitivity.map (fun s => s.volatilityMultiplier)) 1 : ℚ) : ℝ)
  let jumpIntensityMultiplier : ℝ :=
    ((jsOrDefault (sensitivity.map (fun s => s.jumpIntensityMultiplier)) 1 : ℚ) : ℝ)
  let jumpSizeMultiplier : ℝ :=
    ((jsOrDefault (sensitivity.map (fun s => s.jumpSizeMultiplier)) 1 : ℚ) : ℝ)
  let theta : ℝ := (calibration.dailyRV * volMultiplier) ^ 2
  let xi : ℝ := 0.3
  { s0 := currentPrice
    t := max 0.01 timeToClose
    dt := 1 / 60
    bull :=
      { mu := 0.05 / 365 / 24
        heston := { kappa := 2.0, theta := theta, xi := xi, rho := -0.5 } }
    bear :=
      { mu := -0.05 / 365 / 24
        heston := { kappa := 3.0, theta := theta * 1.2, xi := xi * 1.1, rho := -0.7 } }
    hmm :=
      { p := ((0.95, 0.05), (0.10, 0.90))
        pi0 := calibration.regime.probabilities }
    jumps :=
      { lambda := calibration.jumps.lambda * jumpIntensityMultiplier
        mu_j := calibration.jumps.mu_j
        sigma_j := calibration.jumps.sigma_j * jumpSizeMultiplier
        kind := .merton } }

/-! ## Theorems -/

/-- C10: for every probability p and contract price c (cents), the
expected-value function satisfies the YES/NO duality
calculateEV(p, BUY_NO, c) = −calculateEV(p, SELL_YES, c) and
calculateEV(p, SELL_NO, c) = −calculateEV(p, BUY_YES, c). -/
theorem calculateEV_yes_no_duality :
    ∀ p c : ℚ, calculateEV p .BUY_NO c = -calculateEV p .SELL_YES c ∧
      calculateEV p .SELL_NO c = -calculateEV p .BUY_YES c := by
  intro p c
  constructor <;> simp only [calculateEV] <;> ring

/-- C3 counterexample: at dailyRV = 1, weeklyRV = 0, intradayRV = 2 the code
emits xi = 0.5, not the claimed clamp of |intradayRV − dailyRV| / dailyRV
into [0.1, 1] (which would be 1): the code inserts an extra min with 0.5
before clamping. -/
theorem calibrateHestonParams_xi_counterexample :
    (calibrateHestonParams 1 0 2).xi ≠ max 0.1 (min 1 (|(2 : ℝ) - 1| / 1)) := by
  norm_num [calibrateHestonParams]

/-- C3 amended: for nonnegative inputs with dailyRV > 0,
calibrateHestonParams returns theta = 0.7·dailyRV² + 0.3·weeklyRV² clamped
to [1e-4, 0.25]; kappa = 3.0 if |intradayRV − dailyRV| > 0.01 else 2.0,
clamped to [0.5, 5]; xi = min(0.5, |intradayRV − dailyRV| / dailyRV)
clamped to [0.1, 1] (hence effectively clamped to [0.1, 0.5]); and
rho = −0.5. -/
theorem calibrateHestonParams_amended (d w i : ℝ) (hd : 0 < d) (hw : 0 ≤ w)
    (hi : 0 ≤ i) :
    calibrateHestonParams d w i =
      { kappa := max 0.5 (min 5 (if 0.01 < |i - d| then 3 else 2))
        theta := max 0.0001 (min 0.25 (0.7 * d ^ 2 + 0.3 * w ^ 2))
        xi := max 0.1 (min 1 (min 0.5 (|i - d| / d)))
        rho := -0.5 } := by
  simp only [calibrateHestonParams, HestonParams.mk.injEq]
  refine ⟨by norm_num, by ring_nf, by norm_num, by norm_num⟩

/-- Witness for the amended C3 theorem at (1, 1, 1). -/
theorem calibrateHestonParams_amended_witness :
    calibrateHestonParams 1 1 1 =
      { kappa := max 0.5 (min 5 (if (0.01 : ℝ) < |1 - 1| then 3 else 2))
        theta := max 0.0001 (min 0.25 (0.7 * (1 : ℝ) ^ 2 + 0.3 * (1 : ℝ) ^ 2))
        xi := max 0.1 (min 1 (min 0.5 (|(1 : ℝ) - 1| / 1)))
        rho := -0.5 } :=
  calibrateHestonParams_amended 1 1 1 (by norm_num) (by norm_num) (by norm_num)

/-- C5 counterexample: the bundle the calibrator substitutes when the
candle fetch fails carries no degraded marker — the response object (and
the CalibrationData interface) has no such field, so the claim that the
result is marked with a degraded flag is false already at timestamp 0. -/
theorem defaultCalibrationData_no_degraded_flag :
    (defaultCalibrationData 0).degraded ≠ some true := by
  simp [defaultCalibrationData]

/-- C5 amended: when the upstream candle fetch fails, the calibrator
returns the bundle with dailyRV = weeklyRV = intradayRV = √0.04 = 0.2
(0.04 being the documented default Heston theta), the documented default
jumps (lambda = 0.1, mu_j = 0, sigma_j = 0.02, kind = merton) and regime
(current = BULL, probabilities [0.5, 0.5]) — but it does NOT mark the
result with a degraded flag: the response carries no such field. -/
theorem defaultCalibrationData_amended :
    ∀ now : ℤ, defaultCalibrationData now =
      { dailyRV := 0.2
        weeklyRV := 0.2
        intradayRV := 0.2
        jumps := { lambda := 0.1, mu_j := 0, sigma_j := 0.02, kind := .merton }
        regime := { current := .BULL, probabilities := (0.5, 0.5) }
        timestamp := now
        degraded := none } := by
  intro now
  have h : Real.sqrt DEFAULT_HESTON_PARAMS.theta = 0.2 := by
    have h04 : DEFAULT_HESTON_PARAMS.theta = (0.2 : ℝ) ^ 2 := by
      norm_num [DEFAULT_HESTON_PARAMS]
    rw [h04, Real.sqrt_sq (by norm_num)]
  simp [defaultCalibrationData, h, DEFAULT_JUMP_PARAMS]

/-- C9: for every calibration bundle and sensitivity override with the
three multipliers in [0.9, 1.1], the simulation inputs are built with
theta = (dailyRV·vol_mult)², jumps.lambda = calibrated λ·jump_intensity_mult
and jumps.sigma_j = calibrated σ_j·jump_size_mult. -/
theorem prepareSimInputs_multipliers (calibration : CalibrationData)
    (currentPrice timeToClose : ℝ) (s : SensitivityParams)
    (h1 : 0.9 ≤ s.volatilityMultiplier) (h2 : s.volatilityMultiplier ≤ 1.1)
    (h3 : 0.9 ≤ s.jumpIntensityMultiplier) (h4 : s.jumpIntensityMultiplier ≤ 1.1)
    (h5 : 0.9 ≤ s.jumpSizeMultiplier) (h6 : s.jumpSizeMultiplier ≤ 1.1) :
    (prepareSimInputs calibration currentPrice timeToClose (some s)).bull.heston.theta
        = (calibration.dailyRV * (s.volatilityMultiplier : ℝ)) ^ 2 ∧
      (prepareSimInputs calibration currentPrice timeToClose (some s)).jumps.lambda
        = calibration.jumps.lambda * (s.jumpIntensityMultiplier : ℝ) ∧
      (prepareSimInputs calibration currentPrice timeToClose (some s)).jumps.sigma_j
        = calibration.jumps.sigma_j * (s.jumpSizeMultiplier : ℝ) := by
  have hv : ¬ s.volatilityMultiplier = 0 := by intro h0; rw [h0] at h1; norm_num at h1
  have hj : ¬ s.jumpIntensityMultiplier = 0 := by intro h0; rw [h0] at h3; norm_num at h3
  have hk : ¬ s.jumpSizeMultiplier = 0 := by intro h0; rw [h0] at h5; norm_num at h5
  refine ⟨?_, ?_, ?_⟩ <;>
    simp [prepareSimInputs, jsOrDefault, hv, hj, hk]

/-- Witness for C9 at the default calibration bundle, unit price/time and
all multipliers 1. -/
theorem prepareSimInputs_multipliers_witness :
    (prepareSimInputs (defaultCalibrationData 0) 1 1
          (some ⟨1, 1, 1⟩)).bull.heston.theta
        = ((defaultCalibrationData 0).dailyRV *
            ((SensitivityParams.mk 1 1 1).volatilityMultiplier : ℝ)) ^ 2 ∧
      (prepareSimInputs (defaultCalibrationData 0) 1 1
          (some ⟨1, 1, 1⟩)).jumps.lambda
        = (defaultCalibrationData 0).jumps.lambda *
            ((SensitivityParams.mk 1 1 1).jumpIntensityMultiplier : ℝ) ∧
      (prepareSimInputs (defaultCalibrationData 0) 1 1
          (some ⟨1, 1, 1⟩)).jumps.sigma_j
        = (defaultCalibrationData 0).jumps.sigma_j *
            ((SensitivityParams.mk 1 1 1).jumpSizeMultiplier : ℝ) :=
  prepareSimInputs_multipliers (defaultCalibrationData 0) 1 1 ⟨1, 1, 1⟩
    (by norm_num) (by norm_num) (by norm_num) (by norm_num) (by norm_num)
    (by norm_num)

/-- C1: for 0 ≤ h ≤ n with n ≥ 1, wilsonCI(h, n, 0.95) is exactly the
Wilson score interval with z = 1.96, and at confidence 0.99 the same
formula with z = 2.576; for n = 0 it returns [0, 1]. -/
theorem wilsonCI_matches_spec :
    (∀ h n : ℕ, h ≤ n → 1 ≤ n →
        wilsonCI h n 0.95 = wilsonSpecInterval h n 1.96 ∧
          wilsonCI h n 0.99 = wilsonSpecInterval h n 2.576) ∧
      ∀ h : ℕ, ∀ confidence : ℝ, wilsonCI h 0 confidence = (0, 1) := by
  constructor
  · intro h n hhn hn
    have hn0 : n ≠ 0 := by omega
    have e196 : (1.96 : ℝ) * 1.96 = 1.96 ^ 2 := by norm_num
    have e257 : (2.576 : ℝ) * 2.576 = 2.576 ^ 2 := by norm_num
    have eN : 4 * (n : ℝ) * (n : ℝ) = 4 * (n : ℝ) ^ 2 := by ring
    constructor
    · simp only [wilsonCI, wilsonSpecInterval, if_neg hn0, if_pos rfl,
        eq_self_iff_true, ite_true, e196, eN]
    · have hne : (0.99 : ℝ) ≠ 0.95 := by norm_num
      simp only [wilsonCI, wilsonSpecInterval, if_neg hn0, if_neg hne, e257, eN]
  · intro h confidence
    simp [wilsonCI]

/-- Witness for C1 at h = 1, n = 2. -/
theorem wilsonCI_matches_spec_witness :
    wilsonCI 1 2 0.95 = wilsonSpecInterval 1 2 1.96 :=
  (wilsonCI_matches_spec.1 1 2 (by norm_num) (by norm_num)).1

/-- The Wilson margin dominates the distance from the point estimate to the
interval center: |z²/N·(1/2−p)| ≤ z·√(p(1−p)/N + z²/(4N²)). -/
lemma wilson_abs_le (p N z : ℝ) (hN : 0 < N) (hz : 0 < z) (hp0 : 0 ≤ p)
    (hp1 : p ≤ 1) :
    |z * z / N * (1 / 2 - p)| ≤
      z * Real.sqrt (p * (1 - p) / N + z * z / (4 * N * N)) := by
  have hpp : 0 ≤ p * (1 - p) := mul_nonneg hp0 (by linarith)
  have hrw : z * Real.sqrt (p * (1 - p) / N + z * z / (4 * N * N))
      = Real.sqrt (z ^ 2 * (p * (1 - p) / N + z * z / (4 * N * N))) := by
    rw [Real.sqrt_mul (sq_nonneg z), Real.sqrt_sq hz.le]
  rw [hrw, ← Real.sqrt_sq_eq_abs]
  apply Real.sqrt_le_sqrt
  have hkey : z ^ 2 * (p * (1 - p) / N + z * z / (4 * N * N))
      - (z * z / N * (1 / 2 - p)) ^ 2
      = p * (1 - p) * (z ^ 2 / N + z ^ 4 / N ^ 2) := by
    field_simp
    ring
  have hpos : 0 ≤ p * (1 - p) * (z ^ 2 / N + z ^ 4 / N ^ 2) :=
    mul_nonneg hpp (by positivity)
  linarith

/-- The clipped Wilson interval encloses p and stays inside [0, 1], for any
z > 0, sample size N > 0 and point estimate p ∈ [0, 1]. -/
lemma wilson_bounds (p N z : ℝ) (hN : 0 < N) (hz : 0 < z) (hp0 : 0 ≤ p)
    (hp1 : p ≤ 1) :
    0 ≤ max 0 ((p + z * z / (2 * N)) / (1 + z * z / N)
        - z * Real.sqrt (p * (1 - p) / N + z * z / (4 * N * N)) / (1 + z * z / N)) ∧
      max 0 ((p + z * z / (2 * N)) / (1 + z * z / N)
        - z * Real.sqrt (p * (1 - p) / N + z * z / (4 * N * N)) / (1 + z * z / N)) ≤ p ∧
      p ≤ min 1 ((p + z * z / (2 * N)) / (1 + z * z / N)
        + z * Real.sqrt (p * (1 - p) / N + z * z / (4 * N * N)) / (1 + z * z / N)) ∧
      min 1 ((p + z * z / (2 * N)) / (1 + z * z / N)
        + z * Real.sqrt (p * (1 - p) / N + z * z / (4 * N * N)) / (1 + z * z / N)) ≤ 1 := by
  have hd : (0 : ℝ) < 1 + z * z / N := by positivity
  have habs := wilson_abs_le p N z hN hz hp0 hp1
  have h2 := le_of_abs_le habs
  have h1 := neg_le_of_abs_le habs
  have heq : z * z / N * (1 / 2 - p) = z * z / (2 * N) - p * (z * z / N) := by
    ring
  have hexp : p * (1 + z * z / N) = p + p * (z * z / N) := by ring
  have hcm : (p + z * z / (2 * N)) / (1 + z * z / N)
      - z * Real.sqrt (p * (1 - p) / N + z * z / (4 * N * N)) / (1 + z * z / N) ≤ p := by
    rw [div_sub_div_same, div_le_iff₀ hd]
    linarith [h2, heq, hexp]
  have hcp : p ≤ (p + z * z / (2 * N)) / (1 + z * z / N)
      + z * Real.sqrt (p * (1 - p) / N + z * z / (4 * N * N)) / (1 + z * z / N) := by
    rw [div_add_div_same, le_div_iff₀ hd]
    linarith [h1, heq, hexp]
  exact ⟨le_max_left _ _, max_le hp0 hcm, le_min hp1 hcp, min_le_left _ _⟩

/-- C2: for 0 ≤ h ≤ n with n ≥ 1, the pair [lo, hi] returned by
wilsonCI(h, n) satisfies 0 ≤ lo ≤ h/n ≤ hi ≤ 1. -/
theorem wilsonCI_encloses (h n : ℕ) (hh : h ≤ n) (hn : 1 ≤ n) :
    0 ≤ (wilsonCI h n 0.95).1 ∧
      (wilsonCI h n 0.95).1 ≤ (h : ℝ) / (n : ℝ) ∧
      (h : ℝ) / (n : ℝ) ≤ (wilsonCI h n 0.95).2 ∧
      (wilsonCI h n 0.95).2 ≤ 1 := by
  have hn0 : n ≠ 0 := by omega
  have hN : (0 : ℝ) < (n : ℝ) := by exact_mod_cast Nat.pos_of_ne_zero hn0
  have hp0 : 0 ≤ (h : ℝ) / (n : ℝ) := by positivity
  have hp1 : (h : ℝ) / (n : ℝ) ≤ 1 := by
    rw [div_le_one hN]
    exact_mod_cast hh
  have hb := wilson_bounds ((h : ℝ) / (n : ℝ)) (n : ℝ) 1.96 hN (by norm_num) hp0 hp1
  simp only [wilsonCI, if_neg hn0, if_pos rfl, eq_self_iff_true, ite_true]
  exact hb

/-- Witness for C2 at h = 1, n = 2. -/
theorem wilsonCI_encloses_witness :
    0 ≤ (wilsonCI 1 2 0.95).1 ∧
      (wilsonCI 1 2 0.95).1 ≤ ((1 : ℕ) : ℝ) / ((2 : ℕ) : ℝ) ∧
      ((1 : ℕ) : ℝ) / ((2 : ℕ) : ℝ) ≤ (wilsonCI 1 2 0.95).2 ∧
      (wilsonCI 1 2 0.95).2 ≤ 1 :=
  wilsonCI_encloses 1 2 (by norm_num) (by norm_num)

/-- Function `realizedVolatility` agrees with the plain sample standard deviation on
every list: for fewer than two entries both are 0 (the short-circuit in the
code versus 0/0 = 0 and 0/(−1) = 0 in the formula). -/
lemma realizedVolatility_eq_sampleStd (xs : List ℝ) :
    realizedVolatility xs = sampleStd xs := by
  match xs with
  | [] => simp [realizedVolatility, sampleStd]
  | [a] => simp [realizedVolatility, sampleStd]
  | a :: b :: t =>
    have h : ¬ (a :: b :: t).length < 2 := by
      simp [List.length]
    simp only [realizedVolatility, sampleStd, if_neg h]

/-- C4: on a non-empty return series, a return is flagged as a jump exactly
when it is more than 3 sample standard deviations from the mean; with no
flagged return `estimateJumpParams` emits the default merton bundle
{λ=0.1, μ_j=0, σ_j=0.02}; otherwise it emits λ = flagged/total clamped to
[0.01, 1], σ_j = sample standard deviation of ln|jump| clamped to
[0.01, 0.1] and μ_j = 0. -/
theorem estimateJumpParams_spec (rs : List ℝ) (hne : rs ≠ []) :
    (∀ r : ℝ, r ∈ detectJumps rs 3 ↔
        r ∈ rs ∧ 3 * sampleStd rs < |r - listMean rs|) ∧
      (detectJumps rs 3 = [] → estimateJumpParams rs 3 = DEFAULT_JUMP_PARAMS) ∧
      (detectJumps rs 3 ≠ [] →
        estimateJumpParams rs 3 =
          { lambda := max 0.01 (min 1
              (((detectJumps rs 3).length : ℝ) / (rs.length : ℝ)))
            mu_j := 0
            sigma_j := max 0.01 (min 0.1
              (sampleStd ((detectJumps rs 3).map (fun j => Real.log |j|))))
            kind := .merton }) := by
  refine ⟨?_, ?_, ?_⟩
  · intro r
    rw [← realizedVolatility_eq_sampleStd]
    simp [detectJumps, List.mem_filter, listMean]
  · intro h0
    simp [estimateJumpParams, h0]
  · intro h0
    simp only [estimateJumpParams, if_neg h0, sampleStd, listMean,
      JumpParams.mk.injEq]
    norm_num

/-- Witness for C4 at the one-element series [1]: no jump is flagged there,
so the default bundle is emitted. -/
theorem estimateJumpParams_spec_witness :
    estimateJumpParams [(1 : ℝ)] 3 = DEFAULT_JUMP_PARAMS := by
  have hspec := estimateJumpParams_spec [(1 : ℝ)] (by simp)
  have hempty : detectJumps [(1 : ℝ)] 3 = [] := by
    rw [List.eq_nil_iff_forall_not_mem]
    intro r hr
    rcases (hspec.1 r).mp hr with ⟨hmem, hlt⟩
    have hr1 : r = 1 := by simpa using hmem
    subst hr1
    have hm : listMean [(1 : ℝ)] = 1 := by
      simp [listMean]
    rw [hm] at hlt
    have hs : 0 ≤ sampleStd [(1 : ℝ)] := Real.sqrt_nonneg _
    simp at hlt
    linarith
  exact hspec.2.1 hempty

/-- C8: with fewer than 10 returns the regime classifier emits
{BULL, [0.5, 0.5]}; otherwise over the last 20 returns with mean m and
realized vol σ it emits bullScore = (m > 0 ? 0.6 : 0.4) + (σ < 0.02 ? 0.2 : 0),
bearScore = 1 − bullScore, picks the regime with the strictly larger score,
and the probabilities [bullScore, bearScore] sum to 1 and lie in [0, 1]. -/
theorem detectRegime_spec (rs : List ℝ) :
    (rs.length < 10 →
        detectRegime rs = { current := .BULL, probabilities := (0.5, 0.5) }) ∧
      (10 ≤ rs.length →
        (detectRegime rs).probabilities =
            ((if 0 < listMean (rs.drop (rs.length - 20)) then (0.6 : ℝ) else 0.4) +
              (if realizedVolatility (rs.drop (rs.length - 20)) < 0.02
                then (0.2 : ℝ) else 0),
             1 - ((if 0 < listMean (rs.drop (rs.length - 20)) then (0.6 : ℝ) else 0.4) +
              (if realizedVolatility (rs.drop (rs.length - 20)) < 0.02
                then (0.2 : ℝ) else 0))) ∧
          ((detectRegime rs).current = .BULL ∧
              (detectRegime rs).probabilities.2 < (detectRegime rs).probabilities.1 ∨
            (detectRegime rs).current = .BEAR ∧
              (detectRegime rs).probabilities.1 < (detectRegime rs).probabilities.2) ∧
          (detectRegime rs).probabilities.1 + (detectRegime rs).probabilities.2 = 1 ∧
          0 ≤ (detectRegime rs).probabilities.1 ∧
          (detectRegime rs).probabilities.1 ≤ 1 ∧
          0 ≤ (detectRegime rs).probabilities.2 ∧
          (detectRegime rs).probabilities.2 ≤ 1) := by
  constructor
  · intro hlt
    simp [detectRegime, if_pos hlt]
  · intro hge
    have hn : ¬ rs.length < 10 := by omega
    simp only [detectRegime, if_neg hn, listMean]
    by_cases hm :
        (0 : ℝ) < (rs.drop (rs.length - 20)).sum / ((rs.drop (rs.length - 20)).length : ℝ)
    · by_cases hv : realizedVolatility (rs.drop (rs.length - 20)) < 0.02
      · simp only [if_pos hm, if_pos hv]
        norm_num
      · simp only [if_pos hm, if_neg hv]
        norm_num
    · by_cases hv : realizedVolatility (rs.drop (rs.length - 20)) < 0.02
      · simp only [if_neg hm, if_pos hv]
        norm_num
      · simp only [if_neg hm, if_neg hv]
        norm_num

/-- Witness for C8 at the empty series (fewer than 10 returns). -/
theorem detectRegime_spec_witness :
    detectRegime [] = { current := .BULL, probabilities := (0.5, 0.5) } :=
  (detectRegime_spec []).1 (by simp)

/-- Rounding an integer with `Math.round` is the identity: that integer. -/
lemma jsRound_intCast (m : ℤ) : jsRound (m : ℚ) = m := by
  rw [jsRound, Int.floor_int_add]
  norm_num

/-- Rounding with `Math.round` an integer plus a perturbation of size at most 0.49 is
that integer. -/
lemma jsRound_int_add_small (m : ℤ) (d : ℚ) (hd : |d| ≤ 0.49) :
    jsRound ((m : ℚ) + d) = m := by
  rcases abs_le.mp hd with ⟨h1, h2⟩
  have h0 : ⌊d + 1 / 2⌋ = 0 := by
    rw [Int.floor_eq_zero_iff, Set.mem_Ico]
    constructor
    · norm_num at h1 ⊢
      linarith
    · norm_num at h2 ⊢
      linarith
  rw [jsRound, add_assoc, Int.floor_int_add, h0, add_zero]

/-- C6 counterexample: with the base key at spot 100.5 (ticker, time and
multipliers fixed), perturbing s0 by −$0.49 already changes the
fingerprint, refuting the claim that every ±$0.49 perturbation of s0 is a
cache HIT. -/
theorem generateKey_halfdollar_counterexample :
    generateKey (CacheKey.mk "T" (100.5 - 0.49) 1 ⟨1, 1, 1⟩) ≠
      generateKey (CacheKey.mk "T" 100.5 1 ⟨1, 1, 1⟩) := by
  intro heq
  have h1 := congrArg Fingerprint.s0 heq
  simp only [generateKey] at h1
  norm_num [jsRound] at h1

/-- C6 amended: the fingerprint is the canonical encoding of
{ticker, round(s0), round(timeToClose·10)/10, the three sensitivity
multipliers}; consequently, for keys whose s0 is a whole number of dollars
and whose timeToClose is a multiple of 0.1 h, every perturbation of s0 by
at most $0.49 or of timeToClose by at most 0.04 h preserves the
fingerprint (HIT), while perturbing s0 by ±$0.51 changes it (MISS).  For
general keys the ±$0.49/±$0.51 dichotomy is false (see the
counterexample); only the encoding characterisation holds universally. -/
theorem generateKey_amended (k : CacheKey) (m j : ℤ)
    (hs : k.s0 = (m : ℚ)) (ht : k.timeToClose * 10 = (j : ℚ)) :
    (∀ d : ℚ, |d| ≤ 0.49 →
        generateKey { k with s0 := k.s0 + d } = generateKey k) ∧
      (∀ e : ℚ, |e| ≤ 0.04 →
        generateKey { k with timeToClose := k.timeToClose + e } = generateKey k) ∧
      generateKey { k with s0 := k.s0 + 0.51 } ≠ generateKey k ∧
      generateKey { k with s0 := k.s0 - 0.51 } ≠ generateKey k ∧
      (∀ k2 : CacheKey, generateKey k = generateKey k2 ↔
        (k.marketTicker = k2.marketTicker ∧ jsRound k.s0 = jsRound k2.s0 ∧
          jsRound (k.timeToClose * 10) = jsRound (k2.timeToClose * 10) ∧
          k.sensitivity.volatilityMultiplier = k2.sensitivity.volatilityMultiplier ∧
          k.sensitivity.jumpIntensityMultiplier = k2.sensitivity.jumpIntensityMultiplier ∧
          k.sensitivity.jumpSizeMultiplier = k2.sensitivity.jumpSizeMultiplier)) := by
  refine ⟨?_, ?_, ?_, ?_, ?_⟩
  · intro d hd
    have hkey : jsRound (k.s0 + d) = jsRound k.s0 := by
      rw [hs, jsRound_int_add_small m d hd, jsRound_intCast]
    simp [generateKey, Fingerprint.mk.injEq, hkey]
  · intro e he
    have h10 : (k.timeToClose + e) * 10 = (j : ℚ) + e * 10 := by
      rw [add_mul, ht]
    have he10 : |e * 10| ≤ 0.49 := by
      rw [abs_mul, abs_of_nonneg (by norm_num : (0 : ℚ) ≤ 10)]
      linarith [he]
    have hkey : jsRound ((k.timeToClose + e) * 10) = jsRound (k.timeToClose * 10) := by
      rw [h10, jsRound_int_add_small j (e * 10) he10, ht, jsRound_intCast]
    simp [generateKey, Fingerprint.mk.injEq, hkey]
  · intro heq
    have h1 := congrArg Fingerprint.s0 heq
    simp only [generateKey] at h1
    rw [hs] at h1
    have h2 : jsRound ((m : ℚ) + 0.51) = m + 1 := by
      rw [jsRound, add_assoc, Int.floor_int_add]
      norm_num
    rw [h2, jsRound_intCast] at h1
    omega
  · intro heq
    have h1 := congrArg Fingerprint.s0 heq
    simp only [generateKey] at h1
    rw [hs] at h1
    have hsub : (m : ℚ) - 0.51 = (m : ℚ) + (-0.51) := by ring
    have h2 : jsRound ((m : ℚ) + (-0.51)) = m + (-1) := by
      rw [jsRound, add_assoc, Int.floor_int_add]
      norm_num
    rw [hsub, h2, jsRound_intCast] at h1
    omega
  · intro k2
    simp only [generateKey, Fingerprint.mk.injEq]
    constructor
    · rintro ⟨h1, h2, h3, h4, h5, h6⟩
      refine ⟨h1, h2, ?_, h4, h5, h6⟩
      field_simp at h3
      exact_mod_cast h3
    · rintro ⟨h1, h2, h3, h4, h5, h6⟩
      exact ⟨h1, h2, by rw [h3], h4, h5, h6⟩

/-- Witness for the amended C6 theorem: at integer spot 100 and
timeToClose 1 h, a +$0.25 perturbation of s0 keeps the fingerprint. -/
theorem generateKey_amended_witness :
    generateKey (CacheKey.mk "K" ((100 : ℚ) + 0.25) 1 ⟨1, 1, 1⟩) =
      generateKey (CacheKey.mk "K" 100 1 ⟨1, 1, 1⟩) :=
  (generateKey_amended (CacheKey.mk "K" 100 1 ⟨1, 1, 1⟩)
      100 10 (by norm_num) (by norm_num)).1 0.25 (by rw [abs_le]; norm_num)

/-- The keys of an association list. -/
def cacheKeys {α : Type} (l : List (Fingerprint × CacheEntry α)) : List Fingerprint :=
  l.map Prod.fst

/-- Lemma: `Map.set` keeps the key list unchanged when the key is present and
appends it otherwise, so it adds at most one entry. -/
lemma mapSet_length_le {α : Type} (l : List (Fingerprint × CacheEntry α))
    (k : Fingerprint) (v : CacheEntry α) :
    (mapSet l k v).length ≤ l.length + 1 := by
  unfold mapSet
  split
  · simp
  · simp

/-- Lemma: `Map.set` preserves distinctness of the keys. -/
lemma mapSet_keys_nodup {α : Type} {l : List (Fingerprint × CacheEntry α)}
    (h : (cacheKeys l).Nodup) (k : Fingerprint) (v : CacheEntry α) :
    (cacheKeys (mapSet l k v)).Nodup := by
  unfold mapSet
  split
  · have hkeys : cacheKeys (l.map (fun e => if e.1 = k then (k, v) else e)) = cacheKeys l := by
      unfold cacheKeys
      rw [List.map_map]
      apply List.map_congr_left
      intro e _
      by_cases he : e.1 = k
      · simp [he]
      · simp [he]
    rw [hkeys]
    exact h
  · rename_i hany
    have hnot : k ∉ cacheKeys l := by
      intro hk
      rcases List.mem_map.mp hk with ⟨e, he, hek⟩
      have : l.any (fun e => decide (e.1 = k)) = true :=
        List.any_eq_true.mpr ⟨e, he, by simp [hek]⟩
      exact hany this
    unfold cacheKeys at h hnot ⊢
    rw [List.map_append]
    simp only [List.map_cons, List.map_nil]
    rw [List.nodup_append]
    refine ⟨h, List.nodup_singleton k, ?_⟩
    intro a ha hak
    simp only [List.mem_singleton] at hak
    exact hnot (hak ▸ ha)

/-- Lemma: `Map.delete` yields a sublist, so it preserves key distinctness and
never grows the map. -/
lemma mapDelete_sublist {α : Type} (l : List (Fingerprint × CacheEntry α))
    (k : Fingerprint) : (mapDelete l k).Sublist l :=
  List.eraseP_sublist l

/-- The cache state after a `get` is a sublist of the state before. -/
lemma cacheGet_sublist {α : Type} (c : SimulationCache α) (key : CacheKey)
    (now : ℤ) : (cacheGet c key now).2.cache.Sublist c.cache := by
  unfold cacheGet
  cases hf : c.cache.find? (fun e => decide (e.1 = generateKey key)) with
  | none => simp [hf]
  | some entry =>
    simp only [hf]
    split
    · exact mapDelete_sublist c.cache (generateKey key)
    · exact List.Sublist.refl c.cache

/-- With distinct keys, deleting a key leaves no entry with that key. -/
lemma find?_mapDelete_self {α : Type} (l : List (Fingerprint × CacheEntry α))
    (k : Fingerprint) (h : (cacheKeys l).Nodup) :
    (mapDelete l k).find? (fun e => decide (e.1 = k)) = none := by
  induction l with
  | nil => simp [mapDelete]
  | cons a t ih =>
    unfold cacheKeys at h
    simp only [List.map_cons, List.nodup_cons] at h
    by_cases ha : a.1 = k
    · unfold mapDelete
      rw [List.eraseP_cons_of_pos (by simp [ha])]
      rw [List.find?_eq_none]
      intro x hx
      simp only [decide_eq_true_eq]
      intro hxk
      exact h.1 (ha ▸ hxk ▸ List.mem_map_of_mem Prod.fst hx)
    · unfold mapDelete
      rw [List.eraseP_cons_of_neg (by simp [ha])]
      rw [List.find?_cons_of_neg _ (by simp [ha])]
      exact ih h.2

/-- One cache operation preserves the size bound and key distinctness. -/
lemma applyCacheOp_invariant {α : Type} (c : SimulationCache α) (op : CacheOp α)
    (h : c.cache.length ≤ cacheMaxSize ∧ (cacheKeys c.cache).Nodup) :
    (applyCacheOp c op).cache.length ≤ cacheMaxSize ∧
      (cacheKeys (applyCacheOp c op).cache).Nodup := by
  rcases op with ⟨key, now⟩ | ⟨key, result, now⟩ | _
  · have hsub := cacheGet_sublist c key now
    exact ⟨le_trans hsub.length_le h.1,
      h.2.sublist (hsub.map Prod.fst)⟩
  · show (cacheSet c key result now).cache.length ≤ cacheMaxSize ∧
      (cacheKeys (cacheSet c key result now).cache).Nodup
    unfold cacheSet
    by_cases hfull : cacheMaxSize ≤ c.cache.length
    · have hlen : c.cache.length = cacheMaxSize := le_antisymm h.1 hfull
      have hpos : c.cache ≠ [] := by
        intro hnil
        rw [hnil] at hlen
        simp [cacheMaxSize] at hlen
      rcases List.exists_cons_of_ne_nil hpos with ⟨first, tl, hcons⟩
      have hhead : c.cache.head? = some first := by rw [hcons]; rfl
      have hdel : mapDelete c.cache first.1 = tl := by
        rw [hcons]
        unfold mapDelete
        exact List.eraseP_cons_of_pos (by simp)
      simp only [if_pos hfull, hhead, hdel]
      have htl_len : tl.length + 1 = cacheMaxSize := by
        rw [hcons] at hlen
        simpa using hlen
      have htl_nodup : (cacheKeys tl).Nodup := by
        have := h.2
        rw [hcons] at this
        unfold cacheKeys at this ⊢
        simp only [List.map_cons, List.nodup_cons] at this
        exact this.2
      constructor
      · calc (mapSet tl (generateKey key) ⟨result, now⟩).length
            ≤ tl.length + 1 := mapSet_length_le tl _ _
          _ = cacheMaxSize := htl_len
      · exact mapSet_keys_nodup htl_nodup _ _
    · simp only [if_neg hfull]
      constructor
      · calc (mapSet c.cache (generateKey key) ⟨result, now⟩).length
            ≤ c.cache.length + 1 := mapSet_length_le c.cache _ _
          _ ≤ cacheMaxSize := by omega
      · exact mapSet_keys_nodup h.2 _ _
  · show (cacheClear : SimulationCache α).cache.length ≤ cacheMaxSize ∧
      (cacheKeys (cacheClear : SimulationCache α).cache).Nodup
    simp [cacheClear, cacheKeys, cacheMaxSize]

/-- Folding any operation list from an invariant-satisfying state keeps the
invariant. -/
lemma foldl_cacheOps_invariant {α : Type} (ops : List (CacheOp α)) :
    ∀ c : SimulationCache α,
      c.cache.length ≤ cacheMaxSize ∧ (cacheKeys c.cache).Nodup →
      (ops.foldl applyCacheOp c).cache.length ≤ cacheMaxSize ∧
        (cacheKeys (ops.foldl applyCacheOp c).cache).Nodup := by
  induction ops with
  | nil => intro c h; simpa using h
  | cons op rest ih =>
    intro c h
    simp only [List.foldl_cons]
    exact ih _ (applyCacheOp_invariant c op h)

/-- C7: every operation sequence on a fresh SimulationCache keeps its size
at most 50 (with keys unique); when the cache is full, set deletes the
oldest-inserted entry before inserting; and get returns none both when the
key is absent and when the entry is older than the 60000 ms TTL, in the
latter case removing the expired entry from the state it returns. -/
theorem simulationCache_spec (α : Type) :
    (∀ ops : List (CacheOp α), (runCacheOps ops).cache.length ≤ 50) ∧
      (∀ (c : SimulationCache α) (key : CacheKey) (result : α) (now : ℤ)
          (first : Fingerprint × CacheEntry α)
          (tl : List (Fingerprint × CacheEntry α)),
        c.cache = first :: tl → 50 ≤ c.cache.length →
        cacheSet c key result now =
          ⟨mapSet tl (generateKey key) ⟨result, now⟩⟩) ∧
      (∀ (c : SimulationCache α) (key : CacheKey) (now : ℤ),
        (c.cache.find? (fun e => decide (e.1 = generateKey key)) = none →
          cacheGet c key now = (none, c)) ∧
        (∀ entry, c.cache.find? (fun e => decide (e.1 = generateKey key)) = some entry →
          60000 < now - entry.2.timestamp →
          (cacheGet c key now).1 = none ∧
          ((cacheKeys c.cache).Nodup →
            (cacheGet c key now).2.cache.find?
              (fun e => decide (e.1 = generateKey key)) = none))) := by
  refine ⟨?_, ?_, ?_⟩
  · intro ops
    have h := foldl_cacheOps_invariant ops ⟨[]⟩
      (by simp [cacheKeys, cacheMaxSize])
    exact h.1
  · intro c key result now first tl hcons hfull
    have hfull50 : cacheMaxSize ≤ c.cache.length := hfull
    have hhead : c.cache.head? = some first := by rw [hcons]; rfl
    have hdel : mapDelete c.cache first.1 = tl := by
      rw [hcons]
      unfold mapDelete
      exact List.eraseP_cons_of_pos (by simp)
    unfold cacheSet
    simp only [if_pos hfull50, hhead, hdel]
  · intro c key now
    constructor
    · intro hnone
      unfold cacheGet
      simp only [hnone]
    · intro entry hfind hage
      have hage60 : cacheMaxAge < now - entry.2.timestamp := hage
      constructor
      · unfold cacheGet
        simp only [hfind, if_pos hage60]
      · intro hnodup
        unfold cacheGet
        simp only [hfind, if_pos hage60]
        exact find?_mapDelete_self c.cache (generateKey key) hnodup

/-- Witness for C7 at a concrete one-entry cache holding an expired entry:
the read misses and removes the entry. -/
theorem simulationCache_spec_witness :
    (cacheGet (⟨[(generateKey (CacheKey.mk "M" 100 1 ⟨1, 1, 1⟩),
          ⟨(0 : ℕ), 0⟩)]⟩ : SimulationCache ℕ)
        (CacheKey.mk "M" 100 1 ⟨1, 1, 1⟩) 70000).1 = none ∧
      (cacheGet (⟨[(generateKey (CacheKey.mk "M" 100 1 ⟨1, 1, 1⟩),
          ⟨(0 : ℕ), 0⟩)]⟩ : SimulationCache ℕ)
        (CacheKey.mk "M" 100 1 ⟨1, 1, 1⟩) 70000).2.cache.find?
          (fun e => decide (e.1 = generateKey (CacheKey.mk "M" 100 1 ⟨1, 1, 1⟩)))
        = none := by
  have h := ((simulationCache_spec ℕ).2.2
      (⟨[(generateKey (CacheKey.mk "M" 100 1 ⟨1, 1, 1⟩), ⟨(0 : ℕ), 0⟩)]⟩ :
        SimulationCache ℕ)
      (CacheKey.mk "M" 100 1 ⟨1, 1, 1⟩) 70000).2
      (generateKey (CacheKey.mk "M" 100 1 ⟨1, 1, 1⟩), ⟨(0 : ℕ), 0⟩)
      (by rw [List.find?_cons_of_pos _ (by simp)])
      (by norm_num)
  exact ⟨h.1, h.2 (by simp [cacheKeys])⟩

end KalshiBTC
